import Mathlib

set_option maxRecDepth 8000

/-!
Verification of the transform-visualization pipeline of ivadomed
(`src/ivadomed/scripts/visualize_transforms.py`, function `run_visualization`).

The embedding models Python strings as lists of code points, 2-D slices as
lists of lists of rationals, and the stateful double loop of
`run_visualization` (outer loop over configured transforms, inner loop over
sampled slice indexes) as folds over an explicit loop state.  External
collaborators that live outside `src/` (`imed_transforms.Compose`,
`rescale_values_array`, `SampleMetadata`, Python's `random.sample`) are
modelled from the spec, as marked on each definition.
-/

/-- Python strings, modelled as lists of code points. -/
abbrev PyStr := List Char

/-- Embed a Lean string literal into the Python string model. -/
def strL (s : String) : PyStr := s.data

/-- A 2-D numeric array (one extracted slice); values modelled as rationals. -/
abbrev Slice := List (List Rat)

/-- Model of `ivadomed.loader.utils.SampleMetadata` (not under `src/`): a
mapping carrying at least `zooms` and `data_type`; further keys a transform
may add are modelled by the `extra` association list. -/
structure SampleMetadata where
  zooms : List Rat
  data_type : PyStr
  extra : List (PyStr × Int)
deriving DecidableEq, Repr

/-- The external transform registry of the spec: each configured transform
name (with its fixed parameter mapping taken from the configuration file)
resolves to a capability `apply(array, metadata) -> (array, metadata)`. -/
abbrev Registry := PyStr → Slice → SampleMetadata → Slice × SampleMetadata

/-- Modelled from the spec: `imed_transforms.Compose`
(`ivadomed/transforms.py`, not under `src/`) applies each named transform in
list order to an (array, metadata) pair. -/
def Compose (reg : Registry) (specs : List PyStr) (s : Slice) (m : SampleMetadata) :
    Slice × SampleMetadata :=
  specs.foldl (fun p t => reg t p.1 p.2) (s, m)

/-- All entries of a 2-D array, row-major. -/
def flatten (a : Slice) : List Rat := a.flatten

/-- Minimum entry of a 2-D array (`np.min`); 0 on the empty array, on which
the pipeline never calls it. -/
def arrMin (a : Slice) : Rat :=
  match flatten a with
  | [] => 0
  | x :: xs => xs.foldl min x

/-- Maximum entry of a 2-D array (`np.max`); 0 on the empty array. -/
def arrMax (a : Slice) : Rat :=
  match flatten a with
  | [] => 0
  | x :: xs => xs.foldl max x

/-- Modelled from the spec: `rescale_values_array`
(`ivadomed/transforms.py`, not under `src/`) linearly maps the values of an
array so its minimum goes to 0.0 and its maximum to 1.0; on a constant array
(minimum equal to maximum) it returns the all-zero array instead of dividing
by zero. -/
def rescale_values_array (a : Slice) : Slice :=
  if arrMin a = arrMax a then a.map (fun row => row.map (fun _ => 0))
  else a.map (fun row => row.map (fun v => (v - arrMin a) / (arrMax a - arrMin a)))

/-- `np.rot90`: rotate a 2-D array by 90 degrees counterclockwise
(`rot90 a` at row `i`, column `j` holds `a` at row `j`, column `C-1-i`). -/
def rot90 (a : Slice) : Slice := a.transpose.reverse

/-- Decimal digits of `k`, most significant first, with explicit fuel. -/
def natToCharsAux : Nat → Nat → List Char
  | 0, _ => []
  | fuel + 1, k =>
    if k < 10 then [Nat.digitChar k]
    else natToCharsAux fuel (k / 10) ++ [Nat.digitChar (k % 10)]

/-- Model of Python `str(i)` for a natural number. -/
def natToChars (k : Nat) : PyStr := natToCharsAux (k + 1) k

/-- Python `str.split(sep)` on the code-point model: `"".split(sep)` is
`[""]`, a leading/trailing separator contributes an empty part. -/
def pySplit (sep : Char) : List Char → List (List Char)
  | [] => [[]]
  | c :: rest =>
    if c = sep then [] :: pySplit sep rest
    else
      match pySplit sep rest with
      | [] => [[c]]
      | p :: ps => (c :: p) :: ps

/-- Python `sep.join(parts)` on the code-point model. -/
def joinWith (sep : PyStr) : List PyStr → PyStr
  | [] => []
  | [p] => p
  | p :: q :: ps => p ++ sep ++ joinWith sep (q :: ps)

/-- The metadata constructed at line 139 of the script:
`SampleMetadata({"zooms": zooms, "data_type": "gt" if is_mask else "im"})`. -/
def initMeta (zooms : List Rat) (is_mask : Bool) : SampleMetadata :=
  ⟨zooms, if is_mask then strL "gt" else strL "im", []⟩

/-- Lines 136-154 of the script for one slice at one stage: the ROI-gated
application of the current composed prefix `dict`.  When `ROICrop` is among
the configured transforms and the ROI file exists, the metadata is tagged
`"roi"`, the current prefix is run on the ROI slice, the resulting metadata
is captured and re-tagged to `"im"` (line 149 re-tags to `"im"`
unconditionally), and the prefix is then run on the real sample with that
carried metadata.  Returns `stack_im[0]` and the value of the Python
variable `metadata` after the ROI block (the one later printed).  The
`metadata=[metadata for _ in range(n_slices)]` argument replicates one and
the same metadata value, and `sample` is the one-element list `[data]`, so
the call is modelled per sample. -/
def processSlice (reg : Registry) (dict : List PyStr) (hasROICrop : Bool)
    (roiSlice : Option Slice) (zooms : List Rat) (is_mask : Bool) (data : Slice) :
    Slice × SampleMetadata :=
  let m0 := initMeta zooms is_mask
  let carried :=
    match hasROICrop, roiSlice with
    | true, some roi =>
      let m2 := (Compose reg dict roi { m0 with data_type := strL "roi" }).2
      { m2 with data_type := strL "im" }
    | _, _ => m0
  ((Compose reg dict data carried).1, carried)

/-- One invocation of the external renderer `plot_transformed_sample`:
exactly the values lines 157-172 of the script hand to it. -/
structure RenderCall where
  fname : PyStr
  before : Slice
  after : Slice
  title_before : PyStr
  title_after : PyStr
  cmap : PyStr
deriving DecidableEq, Repr

/-- The Python variables of the double loop of lines 121-172 that persist
across iterations: `stg_transforms`, `dict_transforms` (a dict with unique
keys in insertion order, modelled as the list of its keys), the variable
`after` (`none` before its first assignment; reading it then would raise
NameError in Python, which is unreachable while the first configured
transform name is nonempty and the condition of line 161 holds), and the
renderer invocations made so far. -/
structure LoopState where
  stg : PyStr
  dict : List PyStr
  afterVar : Option Slice
  calls : List RenderCall
deriving DecidableEq, Repr

/-- One iteration of the inner loop (lines 136-172) for slice index `i`:
apply the ROI-gated current prefix, then build the before/after pair for the
renderer.  Line 164 (`before = after`) reads the `after` left over from the
previous loop iteration, whichever stage and slice that was. -/
def sliceStep (reg : Registry) (dict : List PyStr) (hasROICrop : Bool)
    (roiData : Option (Nat → Slice)) (zooms : List Rat) (is_mask : Bool)
    (inputData : Nat → Slice) (stg : PyStr)
    (st : Option Slice × List RenderCall) (i : Nat) :
    Option Slice × List RenderCall :=
  let res := processSlice reg dict hasROICrop (roiData.map (fun f => f i))
      zooms is_mask (inputData i)
  let fname := stg ++ strL "slice" ++ natToChars i ++ strL ".png"
  let parts := pySplit '_' stg.dropLast
  let before :=
    if parts.length = 1 then rot90 (rescale_values_array (inputData i))
    else st.1.getD []
  let after := rot90 (rescale_values_array res.1)
  (some after,
    st.2 ++ [⟨fname, before, after,
              joinWith (strL "\n") parts.dropLast,
              joinWith (strL "\n") parts,
              if is_mask then strL "jet" else strL "gray"⟩])

/-- One iteration of the outer loop (lines 123-172) for one configured
transform name: `NumpyToTensor` is skipped (lines 124-126); otherwise the
name is appended to `stg_transforms` and to the dict (configuration
transform names are dict keys, hence unique, so `dict.update` appends), and
the inner loop runs over the sampled indexes. -/
def transformStep (reg : Registry) (hasROICrop : Bool)
    (roiData : Option (Nat → Slice)) (zooms : List Rat) (is_mask : Bool)
    (inputData : Nat → Slice) (indexes : List Nat)
    (st : LoopState) (tname : PyStr) : LoopState :=
  if tname = strL "NumpyToTensor" then st
  else
    let stg := st.stg ++ tname ++ strL "_"
    let dict := st.dict ++ [tname]
    let inner := indexes.foldl
        (sliceStep reg dict hasROICrop roiData zooms is_mask inputData stg)
        (st.afterVar, st.calls)
    ⟨stg, dict, inner.1, inner.2⟩

/-- The outer loop of lines 123-172 folded over the configured transform
names starting from an arbitrary loop state. -/
def runLoop (reg : Registry) (hasROICrop : Bool) (roiData : Option (Nat → Slice))
    (zooms : List Rat) (is_mask : Bool) (inputData : Nat → Slice)
    (indexes : List Nat) (ts : List PyStr) (st : LoopState) : LoopState :=
  ts.foldl (transformStep reg hasROICrop roiData zooms is_mask inputData indexes) st

/-- The renderer invocations `run_visualization` performs after the ROI
gate: the double loop started on the empty state.  `ts` is the ordered list
of configured transform names, `indexes` the sampled slice indexes,
`inputData i` the slice `input_data[:, :, i]`, and `roiData` is `some`
exactly when a ROI filename was given and the file exists. -/
def runCore (reg : Registry) (ts : List PyStr) (indexes : List Nat)
    (inputData : Nat → Slice) (roiData : Option (Nat → Slice))
    (zooms : List Rat) (is_mask : Bool) : List RenderCall :=
  (runLoop reg (ts.contains (strL "ROICrop")) roiData zooms is_mask inputData
    indexes ts ⟨[], [], none, []⟩).calls

/-- Outcome of `run_visualization`: either the early `exit()` of lines
113-118 — which prints a message and terminates with exit status 0, Python's
`exit()` with no argument — or the list of renderer invocations. -/
inductive RunResult where
  | errorExit (msg : PyStr) (exitCode : Nat)
  | ok (calls : List RenderCall)
deriving DecidableEq, Repr

/-- The exit status when the run terminated through `exit()`. -/
def RunResult.exitStatus : RunResult → Option Nat
  | .errorExit _ c => some c
  | .ok _ => none

/-- The renderer invocations of a run (none on the error path, whose
`exit()` fires before any transform is applied or image written). -/
def RunResult.callsOf : RunResult → List RenderCall
  | .errorExit _ _ => []
  | .ok cs => cs

/-- Model of `run_visualization` (lines 110-172) from the sampled indexes
on: if `ROICrop` is configured and no ROI file is available, print the
message of line 117 and `exit()` (status 0) before composing or applying any
transform; otherwise run the double loop. -/
def run_visualization (reg : Registry) (ts : List PyStr) (indexes : List Nat)
    (inputData : Nat → Slice) (roiData : Option (Nat → Slice))
    (zooms : List Rat) (is_mask : Bool) : RunResult :=
  if ts.contains (strL "ROICrop") && roiData.isNone then
    .errorExit
      (strL "\nPlease provide ROI image (-r) in order to apply ROICrop transformation.") 0
  else .ok (runCore reg ts indexes inputData roiData zooms is_mask)

/-- Modelled from the spec and the documented Python standard library
behavior of line 108, `random.sample(range(0, input_data.shape[2]),
n_slices)`: a draw of `n` distinct indices from `[0, D)` determined by the
module-global state `g` of the `random` module; raises
`ValueError("Sample larger than population or is negative")` exactly when
`n` exceeds the population size (a negative `n` is unrepresentable here);
`n = 0` succeeds with the empty sample.  The draw is realized as an
`g`-determined rotation of the population with the first `n` entries
taken. -/
def randomSample (D n g : Nat) : Except PyStr (List Nat) :=
  if D < n then .error (strL "Sample larger than population or is negative")
  else .ok (((List.range D).rotate g).take n)

/-- `run_visualization` from line 108 on, with the ambient state `g` of
Python's global `random` module made explicit: the function itself receives
no seed or generator argument, so `g` is an input of the process, not of the
caller-visible signature. -/
def run_with_global_state (reg : Registry) (ts : List PyStr) (D n g : Nat)
    (inputData : Nat → Slice) (roiData : Option (Nat → Slice))
    (zooms : List Rat) (is_mask : Bool) : Except PyStr RunResult :=
  match randomSample D n g with
  | .error e => .error e
  | .ok indexes => .ok (run_visualization reg ts indexes inputData roiData zooms is_mask)

/-- A heap of Python `SampleMetadata` objects, for the aliasing questions:
`next` is the next fresh reference, `heap` the object stored at each
reference. -/
structure MetaStore where
  next : Nat
  heap : Nat → SampleMetadata

/-- Allocate a fresh metadata object, as evaluating
`SampleMetadata({...})` does. -/
def allocMeta (st : MetaStore) (m : SampleMetadata) : Nat × MetaStore :=
  (st.next, ⟨st.next + 1, fun r => if r = st.next then m else st.heap r⟩)

/-- Line 139 inside `for i in indexes`: each inner-loop iteration constructs
a fresh `SampleMetadata` object; the result associates each sampled slice
index with the reference of the object allocated for it. -/
def sliceMetaRefs (zooms : List Rat) (is_mask : Bool) :
    List Nat → MetaStore → List (Nat × Nat) × MetaStore
  | [], st => ([], st)
  | i :: rest, st =>
    let a := allocMeta st (initMeta zooms is_mask)
    let r := sliceMetaRefs zooms is_mask rest a.2
    ((i, a.1) :: r.1, r.2)

/-- In-place mutation of the metadata object stored at reference `r`. -/
def writeMeta (st : MetaStore) (r : Nat) (m : SampleMetadata) : MetaStore :=
  ⟨st.next, fun x => if x = r then m else st.heap x⟩

/-- Transform names applied as pipeline stages: every configured name except
`NumpyToTensor`, in order (lines 123-126). -/
def filteredT (ts : List PyStr) : List PyStr :=
  ts.filter (fun tn => tn ≠ strL "NumpyToTensor")

/-- Python `"_".join(parts)` specialized to the underscore separator, used
to state the spec's naming convention. -/
def joinUnderscore : List PyStr → PyStr
  | [] => []
  | [p] => p
  | p :: q :: ps => p ++ '_' :: joinUnderscore (q :: ps)

/-- The spec's output naming convention: for each stage (one per applied
transform, `applied` being the names already applied before this stage) and
each sampled index, the names applied up to the stage joined by `"_"`,
followed by the literal slice index. -/
def stageFileKeys (indexes : List Nat) : List PyStr → List PyStr → List PyStr
  | _, [] => []
  | applied, tname :: rest =>
    indexes.map (fun i =>
      joinUnderscore (applied ++ [tname]) ++ strL "_slice" ++ natToChars i ++ strL ".png")
    ++ stageFileKeys indexes (applied ++ [tname]) rest

/-- The identity registry: every transform name resolves to a transform
returning its input unchanged. -/
def regId : Registry := fun _ s m => (s, m)

/-- A constant test volume: every slice is the 1-by-1 array `[[5]]`. -/
def inpConst : Nat → Slice := fun _ => [[5]]

instance instDecEqExcept {ε α : Type _} [DecidableEq ε] [DecidableEq α] :
    DecidableEq (Except ε α)
  | .error a, .error b =>
    if h : a = b then .isTrue (congrArg Except.error h)
    else .isFalse (fun hh => h (Except.error.inj hh))
  | .error _, .ok _ => .isFalse (fun hh => Except.noConfusion hh)
  | .ok _, .error _ => .isFalse (fun hh => Except.noConfusion hh)
  | .ok a, .ok b =>
    if h : a = b then .isTrue (congrArg Except.ok h)
    else .isFalse (fun hh => h (Except.ok.inj hh))

/-- The metadata references allocated for the sampled slices, in sampling
order. -/
def metaRefs (zooms : List Rat) (is_mask : Bool) (idxs : List Nat)
    (st : MetaStore) : List Nat :=
  (sliceMetaRefs zooms is_mask idxs st).1.map (fun pr => pr.2)

/-- A concrete initial heap for the witness. -/
def stA : MetaStore := ⟨0, fun _ => initMeta [] false⟩

/-- The value of `stg_transforms` after the stages for the given names have
run: each name followed by the `"_"` separator, concatenated. -/
def stgOf (names : List PyStr) : PyStr :=
  names.foldl (fun s tn => s ++ tn ++ strL "_") []

/-- Projection of a renderer invocation to the fields that do not depend on
the leftover `after` chaining: the file name and the "after" array. -/
def faProj (c : RenderCall) : PyStr × Slice := (c.fname, c.after)

/-- The (file name, after array) pairs the double loop emits, stage by stage
(`stg0` and `applied` being the `stg_transforms` value and the dict keys
accumulated before the remaining names run). -/
def faGrid (reg : Registry) (hR : Bool) (roiD : Option (Nat → Slice))
    (z : List Rat) (mk : Bool) (inp : Nat → Slice) (idxs : List Nat) :
    PyStr → List PyStr → List PyStr → List (PyStr × Slice)
  | _, _, [] => []
  | stg0, applied, t :: rest =>
    if t = strL "NumpyToTensor" then faGrid reg hR roiD z mk inp idxs stg0 applied rest
    else
      idxs.map (fun i =>
        (stg0 ++ t ++ strL "_" ++ strL "slice" ++ natToChars i ++ strL ".png",
         rot90 (rescale_values_array
           (processSlice reg (applied ++ [t]) hR (roiD.map (fun f => f i)) z mk
             (inp i)).1)))
      ++ faGrid reg hR roiD z mk inp idxs (stg0 ++ t ++ strL "_") (applied ++ [t]) rest

/-- The ROI-gated stage output as the spec describes it: build metadata
tagged `data_type = "roi"`, run the full current prefix on the ROI slice,
capture the metadata that results, re-tag its `data_type` (the script
re-tags to `"im"` unconditionally, line 149), and run the full current
prefix on the real sample with that carried-forward metadata. -/
def roiGatedStageOut (reg : Registry) (dict : List PyStr) (roi : Slice)
    (zooms : List Rat) (is_mask : Bool) (data : Slice) : Slice :=
  let mRoi := { initMeta zooms is_mask with data_type := strL "roi" }
  let captured := (Compose reg dict roi mRoi).2
  let carried := { captured with data_type := strL "im" }
  (Compose reg dict data carried).1

/-- The "after" arrays of a ROI-gated run, stage by stage: at each stage the
ROI-gated output of the current prefix, rescaled and rotated as the script
does before rendering. -/
def roiGatedAfters (reg : Registry) (f : Nat → Slice) (z : List Rat) (mk : Bool)
    (inp : Nat → Slice) (idxs : List Nat) : List PyStr → List PyStr → List Slice
  | _, [] => []
  | applied, t :: rest =>
    idxs.map (fun i => rot90 (rescale_values_array
      (roiGatedStageOut reg (applied ++ [t]) (f i) z mk (inp i))))
    ++ roiGatedAfters reg f z mk inp idxs (applied ++ [t]) rest

/-- A registry whose transform output depends on the metadata `data_type` it
receives (as real transforms may: each receives the metadata). -/
def regA : Registry := fun _ _ m =>
  (if m.data_type = strL "im" then [[1], [1]] else [[1]], m)

/-- A test volume whose every slice is the 1-by-1 array `[[1]]`. -/
def inpB : Nat → Slice := fun _ => [[1]]

/-- The before/after pairs the claim predicts for one sampled slice: at each
stage, "before" is the slice's rendered result under the already-applied
prefix and "after" its rendered result with the stage's transform appended —
both obtained from the one sampled slice. -/
def chainPairs (sA : List PyStr → Slice) : List PyStr → List PyStr → List (Slice × Slice)
  | _, [] => []
  | applied, t :: rest =>
    (sA applied, sA (applied ++ [t])) :: chainPairs sA (applied ++ [t]) rest

/-- The rendered (rescaled, rotated) ROI-gated output of the given composed
prefix on one slice; for the empty prefix this is the rendered input slice
itself. -/
def stageArr (reg : Registry) (hR : Bool) (roiSliceI : Option Slice)
    (z : List Rat) (mk : Bool) (dataI : Slice) (dict : List PyStr) : Slice :=
  rot90 (rescale_values_array (processSlice reg dict hR roiSliceI z mk dataI).1)

/-- A test volume whose slice 7 is 1-by-1 and whose other slices are
2-by-1, so arrays derived from different slices are distinguishable by
shape. -/
def inpC : Nat → Slice := fun i => if i = 7 then [[5]] else [[5], [5]]

/-- C4 (amended): when the configured transform list contains `ROICrop` and
no ROI file is available, `run_visualization` stops with its explicit
user-visible message before composing or applying any transform and
produces no renderer invocation — but it terminates through plain `exit()`,
whose exit status is 0, not a non-zero status. -/
theorem C4_missing_roi_fails_fast (reg : Registry) (ts : List PyStr)
    (indexes : List Nat) (inputData : Nat → Slice) (zooms : List Rat)
    (is_mask : Bool) (hR : ts.contains (strL "ROICrop") = true) :
    run_visualization reg ts indexes inputData none zooms is_mask =
      .errorExit
        (strL "\nPlease provide ROI image (-r) in order to apply ROICrop transformation.") 0
    ∧ (run_visualization reg ts indexes inputData none zooms is_mask).callsOf = [] := by
  have hm : strL "ROICrop" ∈ ts := by simpa using hR
  refine ⟨?_, ?_⟩ <;> simp [run_visualization, hm, RunResult.callsOf]

theorem C4_missing_roi_fails_fast_witness :
    ([strL "Rotate", strL "ROICrop"].contains (strL "ROICrop") = true)
    ∧ (run_visualization regId [strL "Rotate", strL "ROICrop"] [0] inpConst none
        [1] false).callsOf = [] :=
  ⟨by decide,
   (C4_missing_roi_fails_fast regId [strL "Rotate", strL "ROICrop"] [0] inpConst
      [1] false (by decide)).2⟩

/-- C4 counterexample: at a concrete configuration containing `ROICrop` with
no ROI supplied, the run terminates with exit status 0 — the claim asserts a
non-zero exit status. -/
theorem C4_counterexample_exit_status_zero :
    (run_visualization regId [strL "ROICrop"] [0] inpConst none [1]
        false).exitStatus = some 0 := by
  decide

/-- C5 (amended): for `n ≤ D` the sampler returns `n` distinct indices in
`[0, D)`, never silently clamping; for `n > D` it fails with the ValueError
of `random.sample`; but `n = 0` is within the accepted range of
`random.sample` and returns the empty sample instead of failing. -/
theorem C5_slice_sampler_contract (D n g : Nat) :
    (n ≤ D → ∃ l, randomSample D n g = .ok l ∧ l.length = n ∧ l.Nodup ∧
      ∀ x ∈ l, x < D)
    ∧ (D < n → randomSample D n g =
        .error (strL "Sample larger than population or is negative")) := by
  constructor
  · intro h
    refine ⟨((List.range D).rotate g).take n, ?_, ?_, ?_, ?_⟩
    · simp [randomSample, Nat.not_lt.mpr h]
    · simp [List.length_take, List.length_rotate, Nat.min_eq_left h]
    · exact List.Nodup.sublist (List.take_sublist _ _)
        (List.nodup_rotate.mpr (List.nodup_range D))
    · intro x hx
      exact List.mem_range.mp (List.mem_rotate.mp (List.take_subset _ _ hx))
  · intro h
    simp [randomSample, h]

theorem C5_slice_sampler_contract_witness :
    ((5 : Nat) ≤ 50)
    ∧ (∃ l, randomSample 50 5 0 = .ok l ∧ l.length = 5 ∧ l.Nodup ∧
        ∀ x ∈ l, x < 50) :=
  ⟨by decide, (C5_slice_sampler_contract 50 5 0).1 (by decide)⟩

/-- C5 counterexample: requesting `n = 0` slices does not fail —
`random.sample` accepts `k = 0` and returns the empty sample — contradicting
the claim that `n = 0` raises an InvalidSampleSize error. -/
theorem C5_counterexample_zero_count_succeeds :
    randomSample 50 0 0 = Except.ok ([] : List Nat) := by
  rfl

/-- C6 (amended): all randomness of a run flows through the slice sampler:
the ambient global random-module state influences the output only through
the sampled indices, so two runs whose draws agree produce identical
outputs.  The state itself, however, is ambient — `run_visualization` takes
no seed or generator argument. -/
theorem C6_randomness_only_through_sampler (reg : Registry) (ts : List PyStr)
    (D n g1 g2 : Nat) (inputData : Nat → Slice) (roiData : Option (Nat → Slice))
    (zooms : List Rat) (is_mask : Bool)
    (h : randomSample D n g1 = randomSample D n g2) :
    run_with_global_state reg ts D n g1 inputData roiData zooms is_mask =
      run_with_global_state reg ts D n g2 inputData roiData zooms is_mask := by
  simp [run_with_global_state, h]

theorem C6_randomness_only_through_sampler_witness :
    randomSample 1 1 0 = randomSample 1 1 5
    ∧ run_with_global_state regId [strL "A"] 1 1 0 inpConst none [1] false =
        run_with_global_state regId [strL "A"] 1 1 5 inpConst none [1] false :=
  ⟨by rfl,
   C6_randomness_only_through_sampler regId [strL "A"] 1 1 0 5 inpConst none [1]
     false (by rfl)⟩

/-- C6 counterexample: two executions with identical caller-supplied
arguments (volume, configuration, slice count, ROI, parameters) but
different ambient states of the global `random` module produce different
outputs: the script threads no caller-supplied seed or generator into the
sampler, so its output is not a function of the caller-visible inputs. -/
theorem C6_counterexample_hidden_ambient_randomness :
    run_with_global_state regId [strL "A"] 2 1 0 inpConst none [1] false ≠
      run_with_global_state regId [strL "A"] 2 1 1 inpConst none [1] false := by
  decide

theorem runLoop_append (reg : Registry) (hR : Bool) (roiData : Option (Nat → Slice))
    (zooms : List Rat) (is_mask : Bool) (inputData : Nat → Slice)
    (indexes : List Nat) (t1 t2 : List PyStr) (st : LoopState) :
    runLoop reg hR roiData zooms is_mask inputData indexes (t1 ++ t2) st =
      runLoop reg hR roiData zooms is_mask inputData indexes t2
        (runLoop reg hR roiData zooms is_mask inputData indexes t1 st) :=
  List.foldl_append _ _ _ _

theorem transformStep_skip (reg : Registry) (hR : Bool)
    (roiData : Option (Nat → Slice)) (zooms : List Rat) (is_mask : Bool)
    (inputData : Nat → Slice) (indexes : List Nat) (st : LoopState) :
    transformStep reg hR roiData zooms is_mask inputData indexes st
      (strL "NumpyToTensor") = st := by
  simp [transformStep]

/-- C10: a configured transform named `NumpyToTensor` is silently excluded
from the visualization pipeline: the run on a transform list containing it
is identical — same stages, same composed sequences, same file keys, same
renderer invocations — to the run on the list with it removed. -/
theorem C10_numpy_to_tensor_contributes_nothing (reg : Registry)
    (a b : List PyStr) (indexes : List Nat) (inputData : Nat → Slice)
    (roiData : Option (Nat → Slice)) (zooms : List Rat) (is_mask : Bool) :
    run_visualization reg (a ++ strL "NumpyToTensor" :: b) indexes inputData
        roiData zooms is_mask
      = run_visualization reg (a ++ b) indexes inputData roiData zooms is_mask := by
  have hN : strL "NumpyToTensor" ≠ strL "ROICrop" := by decide
  have hc : (a ++ strL "NumpyToTensor" :: b).contains (strL "ROICrop")
      = (a ++ b).contains (strL "ROICrop") := by
    simp [Ne.symm hN]
  have hskip : ∀ st : LoopState,
      runLoop reg ((a ++ b).contains (strL "ROICrop")) roiData zooms is_mask
        inputData indexes (strL "NumpyToTensor" :: b) st
      = runLoop reg ((a ++ b).contains (strL "ROICrop")) roiData zooms is_mask
          inputData indexes b st := by
    intro st
    unfold runLoop
    rw [List.foldl_cons, transformStep_skip]
  unfold run_visualization runCore
  rw [hc, runLoop_append, hskip, ← runLoop_append]

theorem metaRefs_eq_range' (zooms : List Rat) (is_mask : Bool) (idxs : List Nat)
    (st : MetaStore) :
    metaRefs zooms is_mask idxs st = List.range' st.next idxs.length := by
  induction idxs generalizing st with
  | nil => simp [metaRefs, sliceMetaRefs]
  | cons i rest ih =>
    simp only [metaRefs, sliceMetaRefs, allocMeta, List.map_cons, List.length_cons,
      List.range'_succ]
    exact congrArg (fun l => st.next :: l) (ih _)

/-- C3: in one run, each sampled slice index receives its own freshly
allocated metadata object before entering the pipeline (the references
allocated by the inner loop are consecutive fresh addresses, hence pairwise
distinct and never aliased across slices); consequently mutating the
metadata object of one sampled slice leaves the object associated with
every other sampled slice unchanged. -/
theorem C3_metadata_isolation (zooms : List Rat) (is_mask : Bool)
    (idxs : List Nat) (st0 store : MetaStore) (j1 j2 : Nat) (v : SampleMetadata)
    (h1 : j1 < (metaRefs zooms is_mask idxs st0).length)
    (h2 : j2 < (metaRefs zooms is_mask idxs st0).length)
    (hne : j1 ≠ j2) :
    (metaRefs zooms is_mask idxs st0).Nodup
    ∧ (metaRefs zooms is_mask idxs st0).get ⟨j1, h1⟩
        ≠ (metaRefs zooms is_mask idxs st0).get ⟨j2, h2⟩
    ∧ (writeMeta store ((metaRefs zooms is_mask idxs st0).get ⟨j1, h1⟩) v).heap
          ((metaRefs zooms is_mask idxs st0).get ⟨j2, h2⟩)
        = store.heap ((metaRefs zooms is_mask idxs st0).get ⟨j2, h2⟩) := by
  have hr := metaRefs_eq_range' zooms is_mask idxs st0
  have hnd : (metaRefs zooms is_mask idxs st0).Nodup := by
    rw [hr]; exact List.nodup_range' _ _
  have hget : (metaRefs zooms is_mask idxs st0).get ⟨j1, h1⟩
      ≠ (metaRefs zooms is_mask idxs st0).get ⟨j2, h2⟩ := by
    intro he
    exact hne (congrArg Fin.val ((List.Nodup.get_inj_iff hnd).mp he))
  refine ⟨hnd, hget, ?_⟩
  exact if_neg (Ne.symm hget)

theorem C3_metadata_isolation_witness :
    (metaRefs [1] false [7, 19] stA).Nodup
    ∧ (metaRefs [1] false [7, 19] stA).get ⟨0, by decide⟩
        ≠ (metaRefs [1] false [7, 19] stA).get ⟨1, by decide⟩
    ∧ (writeMeta stA ((metaRefs [1] false [7, 19] stA).get ⟨0, by decide⟩)
          (initMeta [2] true)).heap
          ((metaRefs [1] false [7, 19] stA).get ⟨1, by decide⟩)
        = stA.heap ((metaRefs [1] false [7, 19] stA).get ⟨1, by decide⟩) :=
  C3_metadata_isolation [1] false [7, 19] stA stA 0 1 (initMeta [2] true)
    (by decide) (by decide) (by decide)

theorem foldl_min_mem (xs : List Rat) : ∀ x : Rat, xs.foldl min x ∈ x :: xs := by
  induction xs with
  | nil => intro x; simp
  | cons a xs ih =>
    intro x
    rcases List.mem_cons.mp (ih (min x a)) with h1 | h1
    · rw [List.foldl_cons, h1]
      rcases min_choice x a with h2 | h2 <;> rw [h2] <;> simp
    · rw [List.foldl_cons]
      exact List.mem_cons_of_mem _ (List.mem_cons_of_mem _ h1)

theorem foldl_max_mem (xs : List Rat) : ∀ x : Rat, xs.foldl max x ∈ x :: xs := by
  induction xs with
  | nil => intro x; simp
  | cons a xs ih =>
    intro x
    rcases List.mem_cons.mp (ih (max x a)) with h1 | h1
    · rw [List.foldl_cons, h1]
      rcases max_choice x a with h2 | h2 <;> rw [h2] <;> simp
    · rw [List.foldl_cons]
      exact List.mem_cons_of_mem _ (List.mem_cons_of_mem _ h1)

theorem le_foldl_max (xs : List Rat) : ∀ x : Rat, ∀ y ∈ x :: xs, y ≤ xs.foldl max x := by
  induction xs with
  | nil =>
    intro x y hy
    rw [List.mem_singleton.mp hy]
    exact le_refl _
  | cons a xs ih =>
    intro x y hy
    rw [List.foldl_cons]
    have hmax : max x a ≤ xs.foldl max (max x a) :=
      ih (max x a) _ (List.mem_cons_self _ _)
    rcases List.mem_cons.mp hy with h1 | h1
    · subst h1
      exact le_trans (le_max_left _ _) hmax
    · rcases List.mem_cons.mp h1 with h2 | h2
      · subst h2
        exact le_trans (le_max_right _ _) hmax
      · exact ih (max x a) y (List.mem_cons_of_mem _ h2)

theorem foldl_min_le (xs : List Rat) : ∀ x : Rat, ∀ y ∈ x :: xs, xs.foldl min x ≤ y := by
  induction xs with
  | nil =>
    intro x y hy
    rw [List.mem_singleton.mp hy]
    exact le_refl _
  | cons a xs ih =>
    intro x y hy
    rw [List.foldl_cons]
    have hmin : xs.foldl min (min x a) ≤ min x a :=
      ih (min x a) _ (List.mem_cons_self _ _)
    rcases List.mem_cons.mp hy with h1 | h1
    · subst h1
      exact le_trans hmin (min_le_left _ _)
    · rcases List.mem_cons.mp h1 with h2 | h2
      · subst h2
        exact le_trans hmin (min_le_right _ _)
      · exact ih (min x a) y (List.mem_cons_of_mem _ h2)

theorem foldl_min_map (f : Rat → Rat) (hf : ∀ u v, f (min u v) = min (f u) (f v)) :
    ∀ (xs : List Rat) (x : Rat), (xs.map f).foldl min (f x) = f (xs.foldl min x) := by
  intro xs
  induction xs with
  | nil => intro x; rfl
  | cons a xs ih =>
    intro x
    rw [List.map_cons, List.foldl_cons, List.foldl_cons, ← hf, ih]

theorem foldl_max_map (f : Rat → Rat) (hf : ∀ u v, f (max u v) = max (f u) (f v)) :
    ∀ (xs : List Rat) (x : Rat), (xs.map f).foldl max (f x) = f (xs.foldl max x) := by
  intro xs
  induction xs with
  | nil => intro x; rfl
  | cons a xs ih =>
    intro x
    rw [List.map_cons, List.foldl_cons, List.foldl_cons, ← hf, ih]

theorem flatten_map_map (f : Rat → Rat) (a : Slice) :
    flatten (a.map (fun row => row.map f)) = (flatten a).map f := by
  induction a with
  | nil => rfl
  | cons r rs ih =>
    simp only [flatten, List.map_cons, List.flatten_cons, List.map_append]
    exact congrArg (fun l => r.map f ++ l) ih

theorem arrMin_le_arrMax (a : Slice) : arrMin a ≤ arrMax a := by
  cases hfa : flatten a with
  | nil => simp [arrMin, arrMax, hfa]
  | cons x xs =>
    simp only [arrMin, arrMax, hfa]
    exact foldl_min_le xs x _ (foldl_max_mem xs x)

theorem arrMin_map_hom (f : Rat → Rat) (hf : ∀ u v, f (min u v) = min (f u) (f v))
    (a : Slice) (h : flatten a ≠ []) :
    arrMin (a.map (fun row => row.map f)) = f (arrMin a) := by
  cases hfa : flatten a with
  | nil => exact absurd hfa h
  | cons x xs =>
    have hm : flatten (a.map (fun row => row.map f)) = f x :: xs.map f := by
      rw [flatten_map_map, hfa, List.map_cons]
    simp only [arrMin, hm, hfa]
    exact foldl_min_map f hf xs x

theorem arrMax_map_hom (f : Rat → Rat) (hf : ∀ u v, f (max u v) = max (f u) (f v))
    (a : Slice) (h : flatten a ≠ []) :
    arrMax (a.map (fun row => row.map f)) = f (arrMax a) := by
  cases hfa : flatten a with
  | nil => exact absurd hfa h
  | cons x xs =>
    have hm : flatten (a.map (fun row => row.map f)) = f x :: xs.map f := by
      rw [flatten_map_map, hfa, List.map_cons]
    simp only [arrMax, hm, hfa]
    exact foldl_max_map f hf xs x

/-- C9: the intensity normalizer preserves the shape of its 2-D input; on a
constant array (minimum equal to maximum) it performs no division and
returns the all-zero array — every output entry is a well-defined rational,
so no NaN or Inf can arise; on a non-constant array it maps linearly so that
the output minimum is 0.0 and the output maximum is 1.0. -/
theorem C9_intensity_normalizer (a : Slice) :
    (rescale_values_array a).map List.length = a.map List.length
    ∧ (arrMin a = arrMax a →
        rescale_values_array a = a.map (fun row => row.map (fun _ => 0)))
    ∧ (arrMin a ≠ arrMax a →
        arrMin (rescale_values_array a) = 0 ∧ arrMax (rescale_values_array a) = 1) := by
  refine ⟨?_, ?_, ?_⟩
  · by_cases h : arrMin a = arrMax a <;>
      simp [rescale_values_array, h, List.map_map, Function.comp]
  · intro h
    simp [rescale_values_array, h]
  · intro h
    have hne : flatten a ≠ [] := by
      intro hfa
      exact h (by simp [arrMin, arrMax, hfa])
    have hlt : arrMin a < arrMax a := lt_of_le_of_ne (arrMin_le_arrMax a) h
    have hc : (0 : Rat) < arrMax a - arrMin a := sub_pos.mpr hlt
    have hres : rescale_values_array a =
        a.map (fun row => row.map (fun v => (v - arrMin a) / (arrMax a - arrMin a))) := by
      simp [rescale_values_array, h]
    have hfmin : ∀ u v : Rat,
        (min u v - arrMin a) / (arrMax a - arrMin a)
          = min ((u - arrMin a) / (arrMax a - arrMin a))
              ((v - arrMin a) / (arrMax a - arrMin a)) := by
      intro u v
      rw [← min_sub_sub_right, min_div_div_right (le_of_lt hc)]
    have hfmax : ∀ u v : Rat,
        (max u v - arrMin a) / (arrMax a - arrMin a)
          = max ((u - arrMin a) / (arrMax a - arrMin a))
              ((v - arrMin a) / (arrMax a - arrMin a)) := by
      intro u v
      rw [← max_sub_sub_right, max_div_div_right (le_of_lt hc)]
    constructor
    · rw [hres, arrMin_map_hom _ hfmin a hne, sub_self, zero_div]
    · rw [hres, arrMax_map_hom _ hfmax a hne,
        div_self (ne_of_gt hc)]

theorem C9_intensity_normalizer_witness :
    arrMin ([[0, 2], [1, 1]] : Slice) ≠ arrMax ([[0, 2], [1, 1]] : Slice)
    ∧ (arrMin (rescale_values_array ([[0, 2], [1, 1]] : Slice)) = 0
        ∧ arrMax (rescale_values_array ([[0, 2], [1, 1]] : Slice)) = 1) :=
  ⟨by decide, (C9_intensity_normalizer ([[0, 2], [1, 1]] : Slice)).2.2 (by decide)⟩

theorem stgOf_foldl_init (rest : List PyStr) :
    ∀ x : PyStr, rest.foldl (fun s tn => s ++ tn ++ strL "_") x = x ++ stgOf rest := by
  induction rest with
  | nil => intro x; simp [stgOf]
  | cons t rest ih =>
    intro x
    rw [List.foldl_cons]
    rw [ih (x ++ t ++ strL "_")]
    have h2 : stgOf (t :: rest) = (t ++ strL "_") ++ stgOf rest := by
      show (t :: rest).foldl (fun s tn => s ++ tn ++ strL "_") [] = _
      rw [List.foldl_cons, ih ([] ++ t ++ strL "_")]
      simp
    rw [h2]
    simp [List.append_assoc]

theorem stgOf_append_single (l : List PyStr) (t : PyStr) :
    stgOf (l ++ [t]) = stgOf l ++ t ++ strL "_" := by
  show (l ++ [t]).foldl (fun s tn => s ++ tn ++ strL "_") [] = _
  rw [List.foldl_append]
  rfl

theorem stgOf_eq_join (l : List PyStr) (h : l ≠ []) :
    stgOf l = joinUnderscore l ++ strL "_" := by
  induction l with
  | nil => exact absurd rfl h
  | cons t rest ih =>
    cases rest with
    | nil => rfl
    | cons q ps =>
      have h1 : stgOf (t :: q :: ps) = (t ++ strL "_") ++ stgOf (q :: ps) := by
        show (t :: q :: ps).foldl (fun s tn => s ++ tn ++ strL "_") [] = _
        rw [List.foldl_cons, stgOf_foldl_init]
        simp
      rw [h1, ih (by simp), joinUnderscore]
      simp [strL]

theorem pySplit_ne_nil (sep : Char) (l : List Char) : pySplit sep l ≠ [] := by
  cases l with
  | nil => simp [pySplit]
  | cons c rest =>
    by_cases h : c = sep
    · simp [pySplit, h]
    · simp only [pySplit, if_neg h]
      cases hs : pySplit sep rest with
      | nil => simp
      | cons p ps => simp

theorem pySplit_append_free (sep : Char) (p : List Char) (hp : sep ∉ p) :
    ∀ l : List Char, pySplit sep (p ++ l) = (pySplit sep l).modifyHead (fun q => p ++ q) := by
  induction p with
  | nil =>
    intro l
    simp
    cases hs : pySplit sep l with
    | nil => exact absurd hs (pySplit_ne_nil sep l)
    | cons q qs => simp
  | cons c p ih =>
    intro l
    have hc : c ≠ sep := fun hc => hp (hc ▸ List.mem_cons_self c p)
    have hp' : sep ∉ p := fun hx => hp (List.mem_cons_of_mem c hx)
    rw [List.cons_append]
    simp only [pySplit, if_neg hc, ih hp' l]
    cases hs : pySplit sep l with
    | nil => exact absurd hs (pySplit_ne_nil sep l)
    | cons q qs => simp

theorem pySplit_sep_append (sep : Char) (p l : List Char) (hp : sep ∉ p) :
    pySplit sep (p ++ sep :: l) = p :: pySplit sep l := by
  rw [pySplit_append_free sep p hp (sep :: l)]
  simp [pySplit]

theorem pySplit_join (l : List PyStr) (hl : l ≠ [])
    (hu : ∀ t ∈ l, '_' ∉ t) : pySplit '_' (joinUnderscore l) = l := by
  induction l with
  | nil => exact absurd rfl hl
  | cons p rest ih =>
    cases rest with
    | nil =>
      have hp : '_' ∉ p := hu p (List.mem_cons_self _ _)
      have := pySplit_append_free '_' p hp []
      simpa [joinUnderscore, pySplit] using this
    | cons q ps =>
      have hp : '_' ∉ p := hu p (List.mem_cons_self _ _)
      rw [joinUnderscore, pySplit_sep_append '_' p _ hp,
        ih (by simp) (fun t ht => hu t (List.mem_cons_of_mem _ ht))]

theorem stgOf_dropLast_split (l : List PyStr) (hl : l ≠ [])
    (hu : ∀ t ∈ l, '_' ∉ t) :
    pySplit '_' (stgOf l).dropLast = l := by
  rw [stgOf_eq_join l hl]
  have h1 : (joinUnderscore l ++ strL "_").dropLast = joinUnderscore l := by
    have : strL "_" = ['_'] := rfl
    rw [this]
    simp
  rw [h1, pySplit_join l hl hu]

theorem innerFold_faProj (reg : Registry) (dict : List PyStr) (hR : Bool)
    (roiD : Option (Nat → Slice)) (z : List Rat) (mk : Bool)
    (inp : Nat → Slice) (stg : PyStr) :
    ∀ (idxs : List Nat) (st : Option Slice × List RenderCall),
    ((idxs.foldl (sliceStep reg dict hR roiD z mk inp stg) st).2).map faProj
      = st.2.map faProj ++ idxs.map (fun i =>
          (stg ++ strL "slice" ++ natToChars i ++ strL ".png",
           rot90 (rescale_values_array
             (processSlice reg dict hR (roiD.map (fun f => f i)) z mk (inp i)).1))) := by
  intro idxs
  induction idxs with
  | nil => intro st; simp
  | cons i rest ih =>
    intro st
    rw [List.foldl_cons, ih]
    simp [sliceStep, faProj]

theorem runLoop_faProj (reg : Registry) (hR : Bool) (roiD : Option (Nat → Slice))
    (z : List Rat) (mk : Bool) (inp : Nat → Slice) (idxs : List Nat) :
    ∀ (ts : List PyStr) (st : LoopState),
    ((runLoop reg hR roiD z mk inp idxs ts st).calls).map faProj
      = st.calls.map faProj ++ faGrid reg hR roiD z mk inp idxs st.stg st.dict ts := by
  intro ts
  induction ts with
  | nil => intro st; simp [runLoop, faGrid]
  | cons t rest ih =>
    intro st
    show ((runLoop reg hR roiD z mk inp idxs (t :: rest) st).calls).map faProj = _
    unfold runLoop
    rw [List.foldl_cons]
    by_cases ht : t = strL "NumpyToTensor"
    · subst ht
      rw [transformStep_skip]
      have := ih st
      unfold runLoop at this
      rw [this]
      simp [faGrid]
    · have hstep : transformStep reg hR roiD z mk inp idxs st t =
          ⟨st.stg ++ t ++ strL "_", st.dict ++ [t],
           (idxs.foldl (sliceStep reg (st.dict ++ [t]) hR roiD z mk inp
             (st.stg ++ t ++ strL "_")) (st.afterVar, st.calls)).1,
           (idxs.foldl (sliceStep reg (st.dict ++ [t]) hR roiD z mk inp
             (st.stg ++ t ++ strL "_")) (st.afterVar, st.calls)).2⟩ := by
        simp [transformStep, ht]
      have hrest := ih (transformStep reg hR roiD z mk inp idxs st t)
      unfold runLoop at hrest
      rw [hrest, hstep]
      simp only []
      rw [innerFold_faProj]
      simp [faGrid, ht, List.append_assoc]

theorem faGrid_fst (reg : Registry) (hR : Bool) (roiD : Option (Nat → Slice))
    (z : List Rat) (mk : Bool) (inp : Nat → Slice) (idxs : List Nat) :
    ∀ (ts applied : List PyStr),
    (faGrid reg hR roiD z mk inp idxs (stgOf applied) applied ts).map Prod.fst
      = stageFileKeys idxs applied (filteredT ts) := by
  intro ts
  induction ts with
  | nil => intro applied; simp [faGrid, filteredT, stageFileKeys]
  | cons t rest ih =>
    intro applied
    by_cases ht : t = strL "NumpyToTensor"
    · have hfil : filteredT (t :: rest) = filteredT rest := by
        simp [filteredT, List.filter_cons, ht]
      simp only [faGrid, if_pos ht, hfil]
      exact ih applied
    · have hfil : filteredT (t :: rest) = t :: filteredT rest := by
        simp [filteredT, List.filter_cons, ht]
      simp only [faGrid, if_neg ht, hfil, stageFileKeys, List.map_append, List.map_map]
      have h1 : stgOf (applied ++ [t]) = joinUnderscore (applied ++ [t]) ++ strL "_" :=
        stgOf_eq_join (applied ++ [t]) (by simp)
      rw [stgOf_append_single] at h1
      refine congrArg₂ (fun u v => u ++ v) ?_ ?_
      · refine List.map_congr_left ?_
        intro i _
        show stgOf applied ++ t ++ strL "_" ++ strL "slice" ++ natToChars i ++ strL ".png"
          = joinUnderscore (applied ++ [t]) ++ strL "_slice" ++ natToChars i ++ strL ".png"
        have hs : strL "_slice" = strL "_" ++ strL "slice" := by decide
        calc stgOf applied ++ t ++ strL "_" ++ strL "slice" ++ natToChars i ++ strL ".png"
            = (stgOf applied ++ t ++ strL "_") ++
                (strL "slice" ++ (natToChars i ++ strL ".png")) := by
              simp [List.append_assoc]
          _ = (joinUnderscore (applied ++ [t]) ++ strL "_") ++
                (strL "slice" ++ (natToChars i ++ strL ".png")) := by rw [h1]
          _ = joinUnderscore (applied ++ [t]) ++ strL "_slice" ++ natToChars i ++
                strL ".png" := by
              rw [hs]
              simp [List.append_assoc]
      · rw [show stgOf applied ++ t ++ strL "_" = stgOf (applied ++ [t]) from
          (stgOf_append_single applied t).symm]
        exact ih (applied ++ [t])

/-- C8: the file key the run hands to the renderer at stage `k` for sampled
slice index `i` is the names of the transforms applied up to stage `k`
joined by the separator `"_"`, followed by the literal slice index (with the
`"slice"` marker and the `".png"` extension of the script): for transforms
`[Rotate, Crop]` and slice 19, stage 1 yields `Rotate_slice19.png`, stage 2
`Rotate_Crop_slice19.png`. -/
theorem C8_output_naming (reg : Registry) (ts : List PyStr) (idxs : List Nat)
    (inp : Nat → Slice) (roiD : Option (Nat → Slice)) (z : List Rat) (mk : Bool) :
    (runCore reg ts idxs inp roiD z mk).map (fun c => c.fname)
      = stageFileKeys idxs [] (filteredT ts) := by
  have h1 := runLoop_faProj reg (ts.contains (strL "ROICrop")) roiD z mk inp idxs ts
    ⟨[], [], none, []⟩
  have h2 : (runCore reg ts idxs inp roiD z mk).map (fun c => c.fname)
      = ((runCore reg ts idxs inp roiD z mk).map faProj).map Prod.fst := by
    simp [faProj, List.map_map, Function.comp]
  rw [h2]
  unfold runCore
  rw [h1]
  simp only [List.map_nil, List.nil_append]
  have h3 := faGrid_fst reg (ts.contains (strL "ROICrop")) roiD z mk inp idxs ts []
  rw [show stgOf ([] : List PyStr) = [] from rfl] at h3
  exact h3

theorem processSlice_roi (reg : Registry) (dict : List PyStr) (r : Slice)
    (z : List Rat) (mk : Bool) (d : Slice) :
    (processSlice reg dict true (some r) z mk d).1 = roiGatedStageOut reg dict r z mk d := rfl

theorem faGrid_snd_roi (reg : Registry) (f : Nat → Slice) (z : List Rat)
    (mk : Bool) (inp : Nat → Slice) (idxs : List Nat) :
    ∀ (ts applied : List PyStr) (stg0 : PyStr),
    (faGrid reg true (some f) z mk inp idxs stg0 applied ts).map Prod.snd
      = roiGatedAfters reg f z mk inp idxs applied (filteredT ts) := by
  intro ts
  induction ts with
  | nil => intro applied stg0; simp [faGrid, filteredT, roiGatedAfters]
  | cons t rest ih =>
    intro applied stg0
    by_cases ht : t = strL "NumpyToTensor"
    · have hfil : filteredT (t :: rest) = filteredT rest := by
        simp [filteredT, List.filter_cons, ht]
      simp only [faGrid, if_pos ht, hfil]
      exact ih applied stg0
    · have hfil : filteredT (t :: rest) = t :: filteredT rest := by
        simp [filteredT, List.filter_cons, ht]
      simp only [faGrid, if_neg ht, hfil, roiGatedAfters, List.map_append, List.map_map]
      refine congrArg₂ (fun u v => u ++ v) ?_ ?_
      · refine List.map_congr_left ?_
        intro i _
        show (rot90 (rescale_values_array
            (processSlice reg (applied ++ [t]) true ((some f).map (fun g => g i)) z mk
              (inp i)).1)) = _
        rw [show (some f).map (fun g => g i) = some (f i) from rfl,
          processSlice_roi]
      · exact ih (applied ++ [t]) _

/-- C2 (amended): in a run whose configured list contains `ROICrop` and
which received a ROI volume, every stage output for every sampled slice is
produced by the ROI-gated flow the spec describes: metadata tagged
`data_type = "roi"` is built, the full current prefix runs on the ROI slice
and the resulting metadata is captured, that metadata is re-tagged — to
`"im"` unconditionally, not to the ground-truth role `"gt"` when the sample
is a binary mask — and the full current prefix then runs on the real sample
with the carried-forward metadata. -/
theorem C2_roi_gated_metadata_flow (reg : Registry) (ts : List PyStr)
    (idxs : List Nat) (inp : Nat → Slice) (f : Nat → Slice) (z : List Rat)
    (mk : Bool) (hR : ts.contains (strL "ROICrop") = true) :
    (runCore reg ts idxs inp (some f) z mk).map (fun c => c.after)
      = roiGatedAfters reg f z mk inp idxs [] (filteredT ts) := by
  have h2 : (runCore reg ts idxs inp (some f) z mk).map (fun c => c.after)
      = ((runCore reg ts idxs inp (some f) z mk).map faProj).map Prod.snd := by
    simp [faProj, List.map_map, Function.comp]
  rw [h2]
  unfold runCore
  rw [hR, runLoop_faProj reg true (some f) z mk inp idxs ts ⟨[], [], none, []⟩]
  simp only [List.map_nil, List.nil_append]
  exact faGrid_snd_roi reg f z mk inp idxs ts [] []

theorem C2_roi_gated_metadata_flow_witness :
    ([strL "A", strL "ROICrop"].contains (strL "ROICrop") = true)
    ∧ (runCore regId [strL "A", strL "ROICrop"] [0] inpConst (some inpConst) [1]
        true).map (fun c => c.after)
      = roiGatedAfters regId inpConst [1] true inpConst [0] []
          (filteredT [strL "A", strL "ROICrop"]) :=
  ⟨by decide,
   C2_roi_gated_metadata_flow regId [strL "A", strL "ROICrop"] [0] inpConst inpConst
     [1] true (by decide)⟩

/-- C2 counterexample: for a binary mask sample (`is_mask = true`, whose
metadata role is `"gt"`), the captured ROI metadata is re-tagged to `"im"`,
not back to the ground-truth role `"gt"` the claim asserts for a binary
mask: line 149 of the script hardcodes `'im'`. -/
theorem C2_counterexample_mask_retagged_im :
    (initMeta [1] true).data_type = strL "gt"
    ∧ (processSlice regId [strL "ROICrop"] true (some [[1]]) [1] true
        [[1]]).2.data_type = strL "im"
    ∧ strL "im" ≠ strL "gt" :=
  ⟨by decide, by decide, by decide⟩

/-- C1 counterexample: for the configured list `[A, ROICrop]` with a ROI
supplied and a binary-mask input, the first stage of the full run differs
from the standalone run of the one-transform prefix `[A]`: the ROI pre-pass
of lines 142-149 is gated on the full configured list, so it already runs at
stage 1 of the full run and forces `data_type = "im"` into the metadata `A`
receives, while the standalone prefix run — whose configured list does not
contain `ROICrop` — performs no pre-pass and hands `A` the mask role
`"gt"`.  With a transform that reads `data_type`, the rendered stage-1
arrays differ, so the prefix-run output is not identical to the full run's
first stage. -/
theorem C1_counterexample_roi_gated_on_full_list :
    (runCore regA [strL "A", strL "ROICrop"] [0] inpB (some inpB) [1] true).take 1
      ≠ runCore regA [strL "A"] [0] inpB (some inpB) [1] true := by
  decide

theorem innerFold_calls_extend (reg : Registry) (dict : List PyStr) (hR : Bool)
    (roiD : Option (Nat → Slice)) (z : List Rat) (mk : Bool)
    (inp : Nat → Slice) (stg : PyStr) :
    ∀ (idxs : List Nat) (st : Option Slice × List RenderCall),
    ∃ d, (idxs.foldl (sliceStep reg dict hR roiD z mk inp stg) st).2 = st.2 ++ d := by
  intro idxs
  induction idxs with
  | nil => intro st; exact ⟨[], by simp⟩
  | cons i rest ih =>
    intro st
    rw [List.foldl_cons]
    obtain ⟨d, hd⟩ := ih (sliceStep reg dict hR roiD z mk inp stg st i)
    obtain ⟨c, hc⟩ : ∃ c, (sliceStep reg dict hR roiD z mk inp stg st i).2
        = st.2 ++ [c] := ⟨_, rfl⟩
    exact ⟨[c] ++ d, by rw [hd, hc, List.append_assoc]⟩

theorem runLoop_calls_extend (reg : Registry) (hR : Bool)
    (roiD : Option (Nat → Slice)) (z : List Rat) (mk : Bool)
    (inp : Nat → Slice) (idxs : List Nat) :
    ∀ (ts : List PyStr) (st : LoopState),
    ∃ d, (runLoop reg hR roiD z mk inp idxs ts st).calls = st.calls ++ d := by
  intro ts
  induction ts with
  | nil => intro st; exact ⟨[], by simp [runLoop]⟩
  | cons t rest ih =>
    intro st
    unfold runLoop
    rw [List.foldl_cons]
    by_cases ht : t = strL "NumpyToTensor"
    · subst ht
      rw [transformStep_skip]
      obtain ⟨d, hd⟩ := ih st
      unfold runLoop at hd
      exact ⟨d, hd⟩
    · obtain ⟨d1, hd1⟩ := innerFold_calls_extend reg (st.dict ++ [t]) hR roiD z mk inp
        (st.stg ++ t ++ strL "_") idxs (st.afterVar, st.calls)
    
      obtain ⟨d2, hd2⟩ := ih (transformStep reg hR roiD z mk inp idxs st t)
      unfold runLoop at hd2
      refine ⟨d1 ++ d2, ?_⟩
      rw [hd2]
      have hcalls : (transformStep reg hR roiD z mk inp idxs st t).calls
          = st.calls ++ d1 := by
        simp only [transformStep, if_neg ht]
        exact hd1
      rw [hcalls, List.append_assoc]

theorem runLoop_dict (reg : Registry) (hR : Bool) (roiD : Option (Nat → Slice))
    (z : List Rat) (mk : Bool) (inp : Nat → Slice) (idxs : List Nat) :
    ∀ (ts : List PyStr) (st : LoopState),
    (runLoop reg hR roiD z mk inp idxs ts st).dict = st.dict ++ filteredT ts := by
  intro ts
  induction ts with
  | nil => intro st; simp [runLoop, filteredT]
  | cons t rest ih =>
    intro st
    unfold runLoop
    rw [List.foldl_cons]
    by_cases ht : t = strL "NumpyToTensor"
    · subst ht
      rw [transformStep_skip]
      have hr := ih st
      unfold runLoop at hr
      rw [hr]
      simp [filteredT, List.filter_cons]
    · have hr := ih (transformStep reg hR roiD z mk inp idxs st t)
      unfold runLoop at hr
      rw [hr]
      have hdict : (transformStep reg hR roiD z mk inp idxs st t).dict
          = st.dict ++ [t] := by
        simp only [transformStep, if_neg ht]
      rw [hdict]
      simp [filteredT, List.filter_cons, ht, List.append_assoc]

/-- C1 (amended): (i) the incrementally built dict of composed transform
specs after the stages for a configured list equals the
`NumpyToTensor`-filtered list of its specs, so the pipeline applied at
stage `k` is a fresh `Compose` of exactly the first `k` applied specs;
(ii) applying a composed pipeline of `p ++ q` is applying `p` and then `q`,
so prefix results are reproducible by fresh prefix pipelines; and
(iii) provided the leftover suffix does not change whether `ROICrop` occurs
in the configured list — the ROI pre-pass of line 142 is gated on the full
configured list, not on the current prefix — the renderer invocations of
the standalone prefix run are exactly the initial renderer invocations of
the full run. -/
theorem C1_prefix_reproducibility (reg : Registry) (t1 t2 : List PyStr)
    (idxs : List Nat) (inp : Nat → Slice) (roiD : Option (Nat → Slice))
    (z : List Rat) (mk : Bool) (s : Slice) (m : SampleMetadata)
    (h : (t1 ++ t2).contains (strL "ROICrop") = t1.contains (strL "ROICrop")) :
    ((runLoop reg ((t1 ++ t2).contains (strL "ROICrop")) roiD z mk inp idxs t1
        ⟨[], [], none, []⟩).dict = filteredT t1)
    ∧ (∀ p q : List PyStr, Compose reg (p ++ q) s m
        = Compose reg q (Compose reg p s m).1 (Compose reg p s m).2)
    ∧ (∃ rest, runCore reg (t1 ++ t2) idxs inp roiD z mk
        = runCore reg t1 idxs inp roiD z mk ++ rest) := by
  refine ⟨?_, ?_, ?_⟩
  · have hd := runLoop_dict reg ((t1 ++ t2).contains (strL "ROICrop")) roiD z mk inp
      idxs t1 ⟨[], [], none, []⟩
    simpa using hd
  · intro p q
    unfold Compose
    rw [List.foldl_append]
  · unfold runCore
    rw [h, runLoop_append]
    obtain ⟨d, hd⟩ := runLoop_calls_extend reg (t1.contains (strL "ROICrop")) roiD z
      mk inp idxs t2
      (runLoop reg (t1.contains (strL "ROICrop")) roiD z mk inp idxs t1
        ⟨[], [], none, []⟩)
    exact ⟨d, hd⟩

theorem C1_prefix_reproducibility_witness :
    (([strL "Rotate"] ++ [strL "Crop"]).contains (strL "ROICrop")
        = [strL "Rotate"].contains (strL "ROICrop"))
    ∧ (((runLoop regId (([strL "Rotate"] ++ [strL "Crop"]).contains (strL "ROICrop"))
          none [1] false inpConst [0] [strL "Rotate"] ⟨[], [], none, []⟩).dict
        = filteredT [strL "Rotate"])
      ∧ (∀ p q : List PyStr, Compose regId (p ++ q) [[1]] (initMeta [1] false)
          = Compose regId q (Compose regId p [[1]] (initMeta [1] false)).1
              (Compose regId p [[1]] (initMeta [1] false)).2)
      ∧ (∃ rest, runCore regId ([strL "Rotate"] ++ [strL "Crop"]) [0] inpConst none
            [1] false
          = runCore regId [strL "Rotate"] [0] inpConst none [1] false ++ rest)) :=
  ⟨by decide,
   C1_prefix_reproducibility regId [strL "Rotate"] [strL "Crop"] [0] inpConst none
     [1] false [[1]] (initMeta [1] false) (by decide)⟩

theorem runLoop_single_slice (reg : Registry) (hR : Bool)
    (roiD : Option (Nat → Slice)) (z : List Rat) (mk : Bool)
    (inp : Nat → Slice) (i : Nat) :
    ∀ (ts applied : List PyStr) (st : LoopState),
    (∀ t ∈ applied ++ ts, '_' ∉ t) →
    st.stg = stgOf applied →
    st.dict = applied →
    (applied = [] ∨ st.afterVar
        = some (stageArr reg hR (roiD.map (fun f => f i)) z mk (inp i) applied)) →
    ((runLoop reg hR roiD z mk inp [i] ts st).calls).map (fun c => (c.before, c.after))
      = st.calls.map (fun c => (c.before, c.after))
        ++ chainPairs (stageArr reg hR (roiD.map (fun f => f i)) z mk (inp i))
             applied (filteredT ts) := by
  intro ts
  induction ts with
  | nil =>
    intro applied st hu hstg hdict hav
    simp [runLoop, filteredT, chainPairs]
  | cons t rest ih =>
    intro applied st hu hstg hdict hav
    have hu' : ∀ x ∈ applied ++ rest, '_' ∉ x := by
      intro x hx
      refine hu x ?_
      rcases List.mem_append.mp hx with hx1 | hx1
      · exact List.mem_append.mpr (Or.inl hx1)
      · exact List.mem_append.mpr (Or.inr (List.mem_cons_of_mem _ hx1))
    unfold runLoop
    rw [List.foldl_cons]
    by_cases ht : t = strL "NumpyToTensor"
    · subst ht
      rw [transformStep_skip]
      have hrec := ih applied st hu' hstg hdict hav
      unfold runLoop at hrec
      rw [hrec]
      simp [filteredT, List.filter_cons]
    · have hu1 : ∀ x ∈ applied ++ [t], '_' ∉ x := by
        intro x hx
        refine hu x ?_
        rcases List.mem_append.mp hx with hx1 | hx1
        · exact List.mem_append.mpr (Or.inl hx1)
        · exact List.mem_append.mpr
            (Or.inr (List.mem_singleton.mp hx1 ▸ List.mem_cons_self t rest))
      have hsplitA : pySplit '_' ((stgOf applied ++ t ++ strL "_").dropLast)
          = applied ++ [t] := by
        rw [show stgOf applied ++ t ++ strL "_" = stgOf (applied ++ [t]) from
          (stgOf_append_single applied t).symm]
        exact stgOf_dropLast_split (applied ++ [t]) (by simp) hu1
      have hbefore :
          (if (pySplit '_' ((stgOf applied ++ t ++ strL "_").dropLast)).length = 1
            then rot90 (rescale_values_array (inp i))
            else st.afterVar.getD [])
          = stageArr reg hR (roiD.map (fun f => f i)) z mk (inp i) applied := by
        rw [hsplitA]
        by_cases hap : applied = []
        · subst hap
          rw [if_pos (by simp)]
          rfl
        · have hpos : 0 < applied.length := List.length_pos.mpr hap
          rw [if_neg (by simp only [List.length_append, List.length_singleton]; omega)]
          rcases hav with h | h
          · exact absurd h hap
          · rw [h]
            rfl
      have hstg2 : (transformStep reg hR roiD z mk inp [i] st t).stg
          = stgOf (applied ++ [t]) := by
        simp only [transformStep, if_neg ht]
        rw [hstg, ← stgOf_append_single]
      have hdict2 : (transformStep reg hR roiD z mk inp [i] st t).dict
          = applied ++ [t] := by
        simp only [transformStep, if_neg ht]
        rw [hdict]
      have hav2 : (transformStep reg hR roiD z mk inp [i] st t).afterVar
          = some (stageArr reg hR (roiD.map (fun f => f i)) z mk (inp i)
              (applied ++ [t])) := by
        simp only [transformStep, if_neg ht, List.foldl_cons, List.foldl_nil, sliceStep]
        rw [hdict]
        rfl
      have hrec := ih (applied ++ [t]) (transformStep reg hR roiD z mk inp [i] st t)
        (by
          intro x hx
          rcases List.mem_append.mp hx with hx1 | hx1
          · exact hu1 x hx1
          · exact hu' x (List.mem_append.mpr (Or.inr hx1)))
        hstg2 hdict2 (Or.inr hav2)
      unfold runLoop at hrec
      rw [hrec]
      have hcalls2 : ((transformStep reg hR roiD z mk inp [i] st t).calls).map
            (fun c => (c.before, c.after))
          = (st.calls.map (fun c => (c.before, c.after)))
            ++ [(stageArr reg hR (roiD.map (fun f => f i)) z mk (inp i) applied,
                 stageArr reg hR (roiD.map (fun f => f i)) z mk (inp i)
                   (applied ++ [t]))] := by
        simp only [transformStep, if_neg ht, List.foldl_cons, List.foldl_nil, sliceStep,
          List.map_append, List.map_cons, List.map_nil]
        rw [hstg, hdict, hbefore]
        rfl
      rw [hcalls2]
      have hfil : filteredT (t :: rest) = t :: filteredT rest := by
        simp [filteredT, List.filter_cons, ht]
      rw [hfil, chainPairs]
      simp [List.append_assoc]

/-- C7 (amended): the one sampled index list is an input shared by every
stage, and when a single slice is sampled (`n = 1`) every renderer
invocation compares that same physical slice with itself across consecutive
pipeline depths: at stage `k` the "before" array is the slice's rendered
result under the first `k-1` applied transforms and the "after" array its
rendered result under the first `k` — both functions of the one sampled
slice.  (For `n >= 2` this fails; see the counterexample.) -/
theorem C7_before_after_single_slice (reg : Registry) (ts : List PyStr)
    (i : Nat) (inp : Nat → Slice) (roiD : Option (Nat → Slice)) (z : List Rat)
    (mk : Bool) (hu : ∀ t ∈ ts, '_' ∉ t) :
    (runCore reg ts [i] inp roiD z mk).map (fun c => (c.before, c.after))
      = chainPairs (stageArr reg (ts.contains (strL "ROICrop"))
          (roiD.map (fun f => f i)) z mk (inp i)) [] (filteredT ts) := by
  have hmain := runLoop_single_slice reg (ts.contains (strL "ROICrop")) roiD z mk inp i
    ts [] ⟨[], [], none, []⟩ (by simpa using hu) rfl rfl (Or.inl rfl)
  unfold runCore
  simpa using hmain

theorem C7_before_after_single_slice_witness :
    (∀ t ∈ [strL "A", strL "B"], '_' ∉ t)
    ∧ (runCore regId [strL "A", strL "B"] [5] inpConst none [1] false).map
          (fun c => (c.before, c.after))
        = chainPairs (stageArr regId ([strL "A", strL "B"].contains (strL "ROICrop"))
            (Option.map (fun f => f 5) (none : Option (Nat → Slice))) [1] false
            (inpConst 5)) [] (filteredT [strL "A", strL "B"]) :=
  ⟨by decide,
   C7_before_after_single_slice regId [strL "A", strL "B"] 5 inpConst none [1] false
     (by decide)⟩

/-- C7 counterexample: sampling the two slices 7 and 19 with the
two-transform list `[A, B]` (identity transforms), the renderer invocation
at position 2 — stage 2, slice 7 — receives a "before" array of shape 1-by-2
(`[[0, 0]]`), which is the stage-1 "after" of slice 19 left in the `after`
variable by the previous inner-loop iteration (line 164, `before = after`),
whereas slice 7's own result under the first transform — what the claim says
"before" must be — is the 1-by-1 array `[[0]]`. -/
theorem C7_counterexample_cross_slice_before :
    ((runCore regId [strL "A", strL "B"] [7, 19] inpC none [1] false).map
        (fun c => c.before)).get? 2 = some [[(0 : Rat), 0]]
    ∧ rot90 (rescale_values_array (Compose regId [strL "A"] (inpC 7)
        (initMeta [1] false)).1) = [[(0 : Rat)]]
    ∧ ([[(0 : Rat), 0]] : Slice) ≠ [[(0 : Rat)]] :=
  ⟨by decide, by decide, by decide⟩
